import Mathlib

/-!
Verification of the resilience and concurrency-control core of the
ec_force_runner service: the distributed circuit breaker
(`src/utils/circuitBreaker.js`) and the browser resource pool
(`browserPool.js`), against the natural-language design specification.

The JavaScript source is embedded shallowly:

* The circuit breaker is a state machine over `CBState`; `execute`,
  `onSuccess`, `onFailure` and `openCircuit` mirror the methods of the
  `CircuitBreaker` class when its state reads and writes all succeed
  (identically: the local-only mode with no Redis client).  Wall-clock
  time (`Date.now()`) is passed explicitly as a `Nat` of epoch
  milliseconds, and the asynchronous work raced against the timeout is
  abstracted by `WorkBehavior` (the instant it settles and whether it
  resolves or rejects, or that it never settles).
* The Redis primitive accessors (`getState`, `getFailureCount`,
  `getNextAttempt`, `setState`) are embedded separately over a
  `StoreRead` describing the store's response (value found, key
  missing, store error, no store configured) together with the local
  shadow fields of the class.
* The browser pool is a state machine over `PoolState`; instance
  objects are keyed by `id` (the JS code aliases instance objects
  between `pool`, `available` and `inUse`; here `pool` is the canonical
  store and the other two hold ids).  JS array `push`/`pop` operate at
  the end of the array; the embedding keeps the top of that stack at
  the head of the list.
-/

namespace ECForce

/-! ## Circuit breaker: data model (`CIRCUIT_STATE`, constructor fields) -/

inductive CircuitState where
  | CLOSED
  | OPEN
  | HALF_OPEN
deriving DecidableEq, Repr

/-- Configuration fields of `CircuitBreaker` (all in milliseconds where
they are durations). -/
structure CBConfig where
  failureThreshold : Nat
  successThreshold : Nat
  timeout : Nat
  resetTimeout : Nat
deriving DecidableEq, Repr

/-- The mutable circuit record: state enum, failure counter, probe-success
counter, earliest-next-attempt timestamp (epoch ms). -/
structure CBState where
  state : CircuitState
  failureCount : Nat
  successCount : Nat
  nextAttempt : Nat
deriving DecidableEq, Repr

/-- Error outcomes of a protected call: the `error.code` values
`CIRCUIT_OPEN` and `CIRCUIT_TIMEOUT`, and an error thrown by the wrapped
work itself. -/
inductive CBError where
  | circuitOpen
  | circuitTimeout
  | workError
deriving DecidableEq, Repr

/-- Behaviour of the wrapped asynchronous work: it settles `t` ms after
being started (resolving when `ok`, rejecting otherwise), or it never
settles. -/
inductive WorkBehavior where
  | settles (t : Nat) (ok : Bool)
  | hangs
deriving DecidableEq, Repr

/-- `executeWithTimeout`: `Promise.race` between the work and a timer that
rejects with code `CIRCUIT_TIMEOUT` after `cfg.timeout` ms.  Whichever
settles first wins; a work unit that never settles, or settles only at or
after the timer fires, loses the race. -/
def raceResult (cfg : CBConfig) (beh : WorkBehavior) : Except CBError Unit :=
  match beh with
  | .hangs => .error .circuitTimeout
  | .settles t ok =>
      if t < cfg.timeout then
        if ok then .ok () else .error .workError
      else .error .circuitTimeout

/-- `open()`: set state OPEN, set next attempt to `now + resetTimeout`,
reset the success counter.  The failure counter is left untouched. -/
def openCircuit (cfg : CBConfig) (now : Nat) (s : CBState) : CBState :=
  { s with state := .OPEN, nextAttempt := now + cfg.resetTimeout, successCount := 0 }

/-- `onSuccess()`: reset the failure counter unconditionally, then, if in
HALF_OPEN, increment the success counter and close the circuit once it
reaches `successThreshold` (also clearing the success counter). -/
def onSuccess (cfg : CBConfig) (s : CBState) : CBState :=
  let s1 : CBState := { s with failureCount := 0 }
  if s1.state = .HALF_OPEN then
    let sc := s1.successCount + 1
    if cfg.successThreshold ≤ sc then
      { s1 with state := .CLOSED, successCount := 0 }
    else
      { s1 with successCount := sc }
  else s1

/-- `onFailure()`: increment the failure counter; if in HALF_OPEN open the
circuit immediately, else open it once the counter reaches
`failureThreshold`. -/
def onFailure (cfg : CBConfig) (now : Nat) (s : CBState) : CBState :=
  let fc := s.failureCount + 1
  let s1 : CBState := { s with failureCount := fc }
  if s1.state = .HALF_OPEN then openCircuit cfg now s1
  else if cfg.failureThreshold ≤ fc then openCircuit cfg now s1
  else s1

/-- Result of one `execute` call: the state after the call, the value or
error returned to the caller, and whether the wrapped work was invoked. -/
structure ExecResult where
  final : CBState
  result : Except CBError Unit
  invoked : Bool
deriving Repr

/-- The admission check at the top of `execute`: in OPEN with
`Date.now() < nextAttempt` the call is rejected; in OPEN past the next
attempt the breaker moves to HALF_OPEN and the call proceeds; otherwise
the call proceeds unchanged.  Returns the state after the check and
whether the call is admitted. -/
def gate (now : Nat) (s : CBState) : CBState × Bool :=
  if s.state = .OPEN then
    if now < s.nextAttempt then (s, false)
    else ({ s with state := .HALF_OPEN }, true)
  else (s, true)

/-- `execute(fn)`: admission check, then run the work under the timeout,
then `onSuccess`/`onFailure` bookkeeping; errors of the work (and the
timeout error) are re-thrown to the caller. -/
def execute (cfg : CBConfig) (now : Nat) (beh : WorkBehavior) (s : CBState) : ExecResult :=
  let g := gate now s
  if g.2 then
    match raceResult cfg beh with
    | .ok _ => ⟨onSuccess cfg g.1, .ok (), true⟩
    | .error e => ⟨onFailure cfg now g.1, .error e, true⟩
  else
    ⟨g.1, .error .circuitOpen, false⟩

/-- A failing call: the work settles quickly with a rejection. -/
def failingWork : WorkBehavior := .settles 0 false

/-- A succeeding call: the work settles quickly with a resolution. -/
def succeedingWork : WorkBehavior := .settles 0 true

/-- Iterate `execute` with the same behaviour at the given call times,
keeping only the state (used to chain consecutive calls). -/
def runCalls (cfg : CBConfig) (beh : WorkBehavior) (s : CBState) : List Nat → CBState
  | [] => s
  | t :: ts => runCalls cfg beh (execute cfg t beh s).final ts

/-! ## Circuit breaker: Redis primitive accessors with local-shadow fallback

Each accessor of the class wraps its Redis call in a `try`/`catch` whose
catch branch logs and returns (or falls back to) the local shadow field,
and treats a missing key as the zero value.  `StoreRead` describes the
store's response to one read. -/

/-- Outcome of one read against the shared fault state store: the key was
found with value `v`, the key was missing, the store call threw, or no
store client is configured (`this.redis === null`). -/
inductive StoreRead (α : Type) where
  | found (v : α)
  | missing
  | storeError
  | noStore
deriving DecidableEq, Repr

/-- The local shadow fields of the `CircuitBreaker` instance. -/
structure Shadow where
  localState : CircuitState
  localFailureCount : Nat
  localSuccessCount : Nat
  localNextAttempt : Nat
deriving DecidableEq, Repr

/-- `getState()`: `state || CLOSED` on a successful read, local shadow on
a store error or when no store is configured. -/
def getStateRead (r : StoreRead CircuitState) (sh : Shadow) : CircuitState :=
  match r with
  | .found v => v
  | .missing => .CLOSED
  | .storeError => sh.localState
  | .noStore => sh.localState

/-- `getFailureCount()`: `parseInt(count) || 0` on a successful read,
local shadow on a store error or when no store is configured. -/
def getFailureCountRead (r : StoreRead Nat) (sh : Shadow) : Nat :=
  match r with
  | .found v => v
  | .missing => 0
  | .storeError => sh.localFailureCount
  | .noStore => sh.localFailureCount

/-- `getNextAttempt()`: `parseInt(next) || Date.now()` on a successful
read, local shadow on a store error or when no store is configured. -/
def getNextAttemptRead (now : Nat) (r : StoreRead Nat) (sh : Shadow) : Nat :=
  match r with
  | .found v => v
  | .missing => now
  | .storeError => sh.localNextAttempt
  | .noStore => sh.localNextAttempt

/-- `setState(state)`: the local shadow is updated first; the store write
is attempted afterwards and any error from it is caught and logged, so
the resulting shadow (and the absence of a thrown error) is independent
of whether the write failed. -/
def setStateWrite (writeFails : Bool) (st : CircuitState) (sh : Shadow) : Shadow :=
  let sh1 : Shadow := { sh with localState := st }
  -- the try/catch around `redis.set` absorbs the failure
  match writeFails with
  | true => sh1
  | false => sh1

/-- The record returned by `getStatus()` (observability fields omitted):
state, failure count, and the next-attempt timestamp shown only in OPEN. -/
structure CBStatus where
  state : CircuitState
  failureCount : Nat
  nextAttempt : Option Nat
deriving DecidableEq, Repr

/-- `getStatus()`: reads state, failure count and next attempt through the
fallback accessors and never throws. -/
def getStatus (now : Nat) (rs : StoreRead CircuitState) (rf : StoreRead Nat)
    (rn : StoreRead Nat) (sh : Shadow) : CBStatus :=
  let st := getStateRead rs sh
  { state := st
    failureCount := getFailureCountRead rf sh
    nextAttempt := if st = .OPEN then some (getNextAttemptRead now rn sh) else none }

/-! ## Browser pool: data model (`BrowserPool`, `constants.BROWSER_POOL`) -/

/-- A pooled browser instance record: id, creation and last-use
timestamps (epoch ms), cumulative usage count, and whether the underlying
browser is still connected (`browser.isConnected()`). -/
structure BInstance where
  id : Nat
  createdAt : Nat
  lastUsed : Nat
  usageCount : Nat
  connected : Bool
deriving DecidableEq, Repr

/-- Pool configuration: `minInstances`, `maxInstances` and
`instanceTimeout` come from the constructor options;
the usage cap is the module constant `BROWSER_POOL.MAX_USAGE_COUNT`. -/
structure PoolConfig where
  minInstances : Nat
  maxInstances : Nat
  instanceTimeout : Nat
deriving DecidableEq, Repr

/-- `BROWSER_POOL.MAX_USAGE_COUNT` from `config/constants.js`. -/
def MAX_USAGE_COUNT : Nat := 100

/-- Pool state: `pool` is the canonical list of instance records;
`available` and `inUse` hold ids of records in `pool` (the JS arrays and
Set hold aliases of the same objects).  `nextId` generates fresh ids
(the JS id strings are unique with probability 1; uniqueness is modelled
by a counter).  JS `available.push`/`available.pop` act on the end of the
array; here the end of the array is the head of the list. -/
structure PoolState where
  pool : List BInstance
  available : List Nat
  inUse : List Nat
  initialized : Bool
  nextId : Nat
deriving DecidableEq, Repr

/-- The ids of the tracked instances. -/
def ids (pool : List BInstance) : List Nat := pool.map (·.id)

/-- A freshly launched instance (`createInstance`). -/
def mkInstance (id now : Nat) : BInstance :=
  { id := id, createdAt := now, lastUsed := now, usageCount := 0, connected := true }

/-- The pool of a newly constructed `BrowserPool`. -/
def emptyPool : PoolState :=
  { pool := [], available := [], inUse := [], initialized := false, nextId := 0 }

/-- JS `Set.add`: insert an id if absent. -/
def insertId (i : Nat) (l : List Nat) : List Nat :=
  if i ∈ l then l else i :: l

/-- Look up the instance record aliased by an id held in `available`.
`removeInstance` filters `pool` and `available` together, so every id in
`available` has a record in `pool`; the default is unreachable. -/
def findInst (pool : List BInstance) (i : Nat) : BInstance :=
  (pool.find? (fun inst => inst.id = i)).getD (mkInstance i 0)

/-- `instance.lastUsed = Date.now(); instance.usageCount++` applied to the
record with the given id. -/
def touch (pool : List BInstance) (i now : Nat) : List BInstance :=
  pool.map (fun inst =>
    if inst.id = i then { inst with lastUsed := now, usageCount := inst.usageCount + 1 }
    else inst)

/-- An external disconnect of the underlying browser process (the event
that makes `browser.isConnected()` return false). -/
def disconnectInst (s : PoolState) (i : Nat) : PoolState :=
  { s with pool := s.pool.map (fun inst =>
      if inst.id = i then { inst with connected := false } else inst) }

/-- `initialize()`: when not yet initialized, create `minInstances` fresh
instances, pushing each into `pool` and `available`. -/
def initPool (cfg : PoolConfig) (now : Nat) (s : PoolState) : PoolState :=
  if s.initialized then s
  else
    let fresh := (List.range cfg.minInstances).map (fun k => mkInstance (s.nextId + k) now)
    { s with
      pool := s.pool ++ fresh
      available := (ids fresh).reverse ++ s.available
      initialized := true
      nextId := s.nextId + cfg.minInstances }

/-- `removeInstance(instance)`: close the browser (best effort) and filter
the record out of `pool`, `available` and `inUse`. -/
def removeInstance (s : PoolState) (i : Nat) : PoolState :=
  { s with
    pool := s.pool.filter (fun inst => inst.id ≠ i)
    available := s.available.filter (fun j => j ≠ i)
    inUse := s.inUse.filter (fun j => j ≠ i) }

/-- The tail of `acquire()` after an instance has been picked: the
connectivity check (a disconnected instance is removed and replaced by a
fresh one), then `inUse.add`, `lastUsed`/`usageCount` update, and the
return of the browser handle. -/
def acquireFinish (now : Nat) (s : PoolState) (inst : BInstance) : PoolState × Option Nat :=
  let (s1, picked) :=
    if inst.connected then (s, inst)
    else
      let s' := removeInstance s inst.id
      let fresh := mkInstance s'.nextId now
      ({ s' with pool := s'.pool ++ [fresh], nextId := s'.nextId + 1 }, fresh)
  let s2 : PoolState :=
    { s1 with inUse := insertId picked.id s1.inUse, pool := touch s1.pool picked.id now }
  (s2, some picked.id)

/-- `acquire()`: initialize if needed; pop an available instance; else
create a new one when under `maxInstances`; else block in
`waitForAvailable` (modelled as returning no instance and leaving the
state unchanged — the blocked caller's later wake is a later `acquire`
when `available` is non-empty). -/
def acquire (cfg : PoolConfig) (now : Nat) (s0 : PoolState) : PoolState × Option Nat :=
  let s := initPool cfg now s0
  match s.available with
  | i :: rest =>
      acquireFinish now { s with available := rest } (findInst s.pool i)
  | [] =>
      if s.pool.length < cfg.maxInstances then
        let inst := mkInstance s.nextId now
        acquireFinish now { s with pool := s.pool ++ [inst], nextId := s.nextId + 1 } inst
      else
        (s, none)

/-- `release(browser)`: a browser not tracked in `pool` is a logged
no-op.  Otherwise the retirement policy
`age > instanceTimeout || usageCount > MAX_USAGE_COUNT` is evaluated; a
retired instance is removed (and a replacement created when the pool
falls below `minInstances`), a kept instance is moved back to
`available`. -/
def release (cfg : PoolConfig) (now : Nat) (s : PoolState) (i : Nat) : PoolState :=
  match s.pool.find? (fun inst => inst.id = i) with
  | none => s
  | some inst =>
      let age := now - inst.createdAt
      if age > cfg.instanceTimeout ∨ inst.usageCount > MAX_USAGE_COUNT then
        let s1 := removeInstance s inst.id
        if s1.pool.length < cfg.minInstances then
          let fresh := mkInstance s1.nextId now
          { s1 with
            pool := s1.pool ++ [fresh]
            available := fresh.id :: s1.available
            nextId := s1.nextId + 1 }
        else s1
      else
        { s with
          inUse := s.inUse.filter (fun j => j ≠ inst.id)
          available := inst.id :: s.available }

/-- `shutdown()`: close every browser best-effort and clear all
bookkeeping. -/
def shutdownPool (s : PoolState) : PoolState :=
  { s with pool := [], available := [], inUse := [], initialized := false }

/-! ## Browser pool: operation traces -/

/-- One externally triggered pool operation (with the wall-clock time at
which it runs where the operation reads the clock). -/
inductive PoolOp where
  | opAcquire (now : Nat)
  | opRelease (now : Nat) (i : Nat)
  | opRemove (i : Nat)
  | opShutdown
  | opDisconnect (i : Nat)
deriving DecidableEq, Repr

/-- The state transition of one pool operation. -/
def step (cfg : PoolConfig) (s : PoolState) : PoolOp → PoolState
  | .opAcquire now => (acquire cfg now s).1
  | .opRelease now i => release cfg now s i
  | .opRemove i => removeInstance s i
  | .opShutdown => shutdownPool s
  | .opDisconnect i => disconnectInst s i

/-- Run a sequence of pool operations. -/
def runOps (cfg : PoolConfig) (s : PoolState) : List PoolOp → PoolState
  | [] => s
  | op :: ops => runOps cfg (step cfg s op) ops

/-! ## Browser pool: invariants -/

/-- Basic well-formedness of a pool state, maintained by every operation:
`available` and `inUse` reference tracked instances, tracked ids are
distinct and below the id generator, `inUse` is a set, the pool is within
capacity, and an uninitialized pool is empty. -/
def Inv (cfg : PoolConfig) (s : PoolState) : Prop :=
  (∀ i ∈ s.available, i ∈ ids s.pool) ∧
  (∀ i ∈ s.inUse, i ∈ ids s.pool) ∧
  (∀ inst ∈ s.pool, inst.id < s.nextId) ∧
  (ids s.pool).Nodup ∧
  s.inUse.Nodup ∧
  s.pool.length ≤ cfg.maxInstances ∧
  (s.initialized = false → s.pool = [] ∧ s.available = [] ∧ s.inUse = [])

/-- The exactly-one-state partition: `available` has no duplicates, no id
is both available and in use, and every tracked instance is in one of the
two (an untracked — retired or foreign — id is in neither, by `Inv`). -/
def Partitioned (s : PoolState) : Prop :=
  s.available.Nodup ∧
  (∀ i ∈ s.available, i ∉ s.inUse) ∧
  (∀ inst ∈ s.pool, inst.id ∈ s.available ∨ inst.id ∈ s.inUse)

/-- Full state-partition invariant. -/
def XInv (cfg : PoolConfig) (s : PoolState) : Prop :=
  Inv cfg s ∧ Partitioned s

/-- The discipline under which the partition is preserved: `release` is
called only with a handle that is currently in use, or with a foreign
handle (on which it no-ops).  Releasing an id that is already idle is the
double-release that breaks the partition. -/
def guardOk (s : PoolState) : PoolOp → Prop
  | .opRelease _ i => i ∈ s.inUse ∨ i ∉ ids s.pool
  | _ => True

/-! ## Circuit breaker: helper lemmas -/

theorem raceResult_failing (cfg : CBConfig) :
    ∃ e, raceResult cfg failingWork = .error e := by
  unfold raceResult failingWork
  by_cases h : 0 < cfg.timeout <;> simp [h]

theorem gate_not_open (now : Nat) (s : CBState) (h : s.state ≠ .OPEN) :
    gate now s = (s, true) := by
  simp [gate, h]

theorem gate_open_early (now : Nat) (s : CBState) (h1 : s.state = .OPEN)
    (h2 : now < s.nextAttempt) : gate now s = (s, false) := by
  simp [gate, h1, h2]

theorem gate_open_late (now : Nat) (s : CBState) (h1 : s.state = .OPEN)
    (h2 : s.nextAttempt ≤ now) :
    gate now s = ({ s with state := .HALF_OPEN }, true) := by
  simp [gate, h1, Nat.not_lt.mpr h2]

theorem execute_rejected (cfg : CBConfig) (now : Nat) (beh : WorkBehavior) (s : CBState)
    (h1 : s.state = .OPEN) (h2 : now < s.nextAttempt) :
    execute cfg now beh s = ⟨s, .error .circuitOpen, false⟩ := by
  simp [execute, gate_open_early now s h1 h2]

theorem execute_admitted_failing (cfg : CBConfig) (now : Nat) (s : CBState)
    (h : (gate now s).2 = true) :
    (execute cfg now failingWork s).final = onFailure cfg now (gate now s).1 ∧
    (execute cfg now failingWork s).invoked = true := by
  obtain ⟨e, he⟩ := raceResult_failing cfg
  simp [execute, h, he]

theorem execute_admitted_invoked (cfg : CBConfig) (now : Nat) (beh : WorkBehavior)
    (s : CBState) (h : (gate now s).2 = true) :
    (execute cfg now beh s).invoked = true := by
  cases hr : raceResult cfg beh <;> simp [execute, h, hr]

theorem onFailure_failureCount (cfg : CBConfig) (now : Nat) (s : CBState) :
    (onFailure cfg now s).failureCount = s.failureCount + 1 := by
  unfold onFailure openCircuit
  by_cases h1 : s.state = .HALF_OPEN <;> by_cases h2 : cfg.failureThreshold ≤ s.failureCount + 1 <;>
    simp [h1, h2]

theorem onSuccess_failureCount (cfg : CBConfig) (s : CBState) :
    (onSuccess cfg s).failureCount = 0 := by
  unfold onSuccess
  by_cases h1 : s.state = .HALF_OPEN <;>
    by_cases h2 : cfg.successThreshold ≤ s.successCount + 1 <;> simp [h1, h2]

theorem step_fail_closed (cfg : CBConfig) (now fc sc na : Nat)
    (hlt : fc + 1 < cfg.failureThreshold) :
    (execute cfg now failingWork ⟨.CLOSED, fc, sc, na⟩).final = ⟨.CLOSED, fc + 1, sc, na⟩ := by
  have hg : gate now ⟨.CLOSED, fc, sc, na⟩ = (⟨.CLOSED, fc, sc, na⟩, true) :=
    gate_not_open now _ (by simp)
  have := (execute_admitted_failing cfg now ⟨.CLOSED, fc, sc, na⟩ (by rw [hg])).1
  rw [this, hg]
  simp [onFailure, Nat.not_le.mpr hlt]

theorem step_fail_closed_opens (cfg : CBConfig) (now fc sc na : Nat)
    (hge : cfg.failureThreshold ≤ fc + 1) :
    (execute cfg now failingWork ⟨.CLOSED, fc, sc, na⟩).final =
      ⟨.OPEN, fc + 1, 0, now + cfg.resetTimeout⟩ := by
  have hg : gate now ⟨.CLOSED, fc, sc, na⟩ = (⟨.CLOSED, fc, sc, na⟩, true) :=
    gate_not_open now _ (by simp)
  have := (execute_admitted_failing cfg now ⟨.CLOSED, fc, sc, na⟩ (by rw [hg])).1
  rw [this, hg]
  simp [onFailure, hge, openCircuit]

theorem raceResult_ok (cfg : CBConfig) (t : Nat) (h : t < cfg.timeout) :
    raceResult cfg (.settles t true) = .ok () := by
  simp [raceResult, h]

theorem raceResult_late (cfg : CBConfig) (t : Nat) (ok : Bool) (h : cfg.timeout ≤ t) :
    raceResult cfg (.settles t ok) = .error .circuitTimeout := by
  simp [raceResult, Nat.not_lt.mpr h]

theorem gate_fst_failureCount (now : Nat) (s : CBState) :
    ((gate now s).1).failureCount = s.failureCount := by
  unfold gate
  by_cases h1 : s.state = .OPEN <;> by_cases h2 : now < s.nextAttempt <;> simp [h1, h2]

theorem onFailure_half_open (cfg : CBConfig) (now : Nat) (s : CBState)
    (h : s.state = .HALF_OPEN) :
    (onFailure cfg now s).state = .OPEN ∧
    (onFailure cfg now s).nextAttempt = now + cfg.resetTimeout := by
  unfold onFailure openCircuit
  simp [h]

/-! ## Browser pool: helper lemmas about `ids` -/

theorem ids_append (p q : List BInstance) : ids (p ++ q) = ids p ++ ids q := by
  simp [ids]

theorem mem_ids (pool : List BInstance) (i : Nat) :
    i ∈ ids pool ↔ ∃ inst ∈ pool, inst.id = i := by
  simp [ids]

theorem ids_touch (pool : List BInstance) (i now : Nat) :
    ids (touch pool i now) = ids pool := by
  unfold ids touch
  rw [List.map_map]
  apply List.map_congr_left
  intro a _
  by_cases h : a.id = i <;> simp [h]

theorem ids_disconnect (s : PoolState) (i : Nat) :
    ids (disconnectInst s i).pool = ids s.pool := by
  unfold ids disconnectInst
  rw [List.map_map]
  apply List.map_congr_left
  intro a _
  by_cases h : a.id = i <;> simp [h]

theorem length_touch (pool : List BInstance) (i now : Nat) :
    (touch pool i now).length = pool.length := by
  simp [touch]

theorem ids_sub_filter (pool : List BInstance) (i j : Nat)
    (h : j ∈ ids (pool.filter (fun inst => inst.id ≠ i))) : j ∈ ids pool := by
  rw [mem_ids] at h ⊢
  obtain ⟨inst, hmem, hid⟩ := h
  exact ⟨inst, (List.mem_filter.mp hmem).1, hid⟩

theorem not_mem_ids_filter (pool : List BInstance) (i : Nat) :
    i ∉ ids (pool.filter (fun inst => inst.id ≠ i)) := by
  rw [mem_ids]
  rintro ⟨inst, hmem, hid⟩
  have := (List.mem_filter.mp hmem).2
  simp [hid] at this

theorem nodup_ids_filter (pool : List BInstance) (i : Nat)
    (h : (ids pool).Nodup) : (ids (pool.filter (fun inst => inst.id ≠ i))).Nodup := by
  unfold ids at h ⊢
  exact h.sublist (List.Sublist.map _ (List.filter_sublist pool))

theorem length_filter_lt (pool : List BInstance) (i : Nat) (h : i ∈ ids pool) :
    (pool.filter (fun inst => inst.id ≠ i)).length < pool.length := by
  rw [List.length_filter_lt_length_iff_exists]
  obtain ⟨inst, hmem, hid⟩ := (mem_ids pool i).mp h
  exact ⟨inst, hmem, by simp [hid]⟩

theorem insertId_nodup (i : Nat) (l : List Nat) (h : l.Nodup) : (insertId i l).Nodup := by
  unfold insertId
  by_cases hm : i ∈ l <;> simp [hm, h]

theorem mem_insertId (i j : Nat) (l : List Nat) :
    j ∈ insertId i l ↔ j = i ∨ j ∈ l := by
  unfold insertId
  by_cases hm : i ∈ l <;> simp [hm]
  intro h
  exact h ▸ hm

theorem mem_ids_filter_of (pool : List BInstance) (i j : Nat)
    (hj : j ∈ ids pool) (hne : j ≠ i) :
    j ∈ ids (pool.filter (fun inst => inst.id ≠ i)) := by
  rw [mem_ids] at hj ⊢
  obtain ⟨inst, hmem, hid⟩ := hj
  exact ⟨inst, List.mem_filter.mpr ⟨hmem, by simp [hid, hne]⟩, hid⟩

theorem ids_fresh_range (n m now : Nat) :
    ids ((List.range n).map (fun k => mkInstance (m + k) now)) =
      (List.range n).map (fun k => m + k) := by
  simp only [ids, List.map_map]
  rfl

theorem mem_map_range_add (n m j : Nat) :
    j ∈ (List.range n).map (fun k => m + k) ↔ m ≤ j ∧ j < m + n := by
  simp only [List.mem_map, List.mem_range]
  constructor
  · rintro ⟨k, hk, rfl⟩; omega
  · rintro ⟨h1, h2⟩; exact ⟨j - m, by omega, by omega⟩

/-! ## Browser pool: invariant preservation -/

theorem inv_removeInstance (cfg : PoolConfig) (s : PoolState) (i : Nat)
    (h : Inv cfg s) : Inv cfg (removeInstance s i) := by
  obtain ⟨ha, hu, hlt, hnd, hund, hlen, hinit⟩ := h
  refine ⟨?_, ?_, ?_, ?_, ?_, ?_, ?_⟩
  · intro j hj
    have hj' := List.mem_filter.mp hj
    exact mem_ids_filter_of _ _ _ (ha j hj'.1) (by simpa using hj'.2)
  · intro j hj
    have hj' := List.mem_filter.mp hj
    exact mem_ids_filter_of _ _ _ (hu j hj'.1) (by simpa using hj'.2)
  · intro inst hmem
    exact hlt inst (List.mem_filter.mp hmem).1
  · exact nodup_ids_filter _ _ hnd
  · exact hund.sublist (List.filter_sublist _)
  · exact le_trans (List.length_filter_le _ _) hlen
  · intro h0
    obtain ⟨e1, e2, e3⟩ := hinit h0
    simp [removeInstance, e1, e2, e3]

theorem inv_shutdownPool (cfg : PoolConfig) (s : PoolState) (_h : Inv cfg s) :
    Inv cfg (shutdownPool s) := by
  refine ⟨?_, ?_, ?_, ?_, ?_, ?_, ?_⟩ <;> simp [shutdownPool, ids]

theorem inv_disconnectInst (cfg : PoolConfig) (s : PoolState) (i : Nat)
    (h : Inv cfg s) : Inv cfg (disconnectInst s i) := by
  obtain ⟨ha, hu, hlt, hnd, hund, hlen, hinit⟩ := h
  have hids := ids_disconnect s i
  refine ⟨?_, ?_, ?_, ?_, ?_, ?_, ?_⟩
  · intro j hj; rw [hids]; exact ha j hj
  · intro j hj; rw [hids]; exact hu j hj
  · intro inst hmem
    have hnid : (disconnectInst s i).nextId = s.nextId := rfl
    rw [hnid]
    simp only [disconnectInst, List.mem_map] at hmem
    obtain ⟨a, hamem, rfl⟩ := hmem
    have := hlt a hamem
    by_cases hc : a.id = i <;> simp [hc] <;> omega
  · rw [hids]; exact hnd
  · exact hund
  · simpa [disconnectInst] using hlen
  · intro h0
    obtain ⟨e1, e2, e3⟩ := hinit h0
    simp [disconnectInst, e1, e2, e3]

theorem inv_initPool (cfg : PoolConfig) (now : Nat) (s : PoolState)
    (hmin : cfg.minInstances ≤ cfg.maxInstances)
    (h : Inv cfg s) : Inv cfg (initPool cfg now s) := by
  obtain ⟨ha, hu, hlt, hnd, hund, hlen, hinit⟩ := h
  unfold initPool
  cases hi : s.initialized
  · obtain ⟨e1, e2, e3⟩ := hinit hi
    rw [if_neg (by simp)]
    simp only [e1, e2, e3, List.nil_append, List.append_nil]
    refine ⟨?_, ?_, ?_, ?_, ?_, ?_, ?_⟩
    · intro j hj
      simp only [List.mem_reverse] at hj
      exact hj
    · intro j hj
      simp at hj
    · intro inst hmem
      simp only [List.mem_map, List.mem_range] at hmem
      obtain ⟨k, hk, rfl⟩ := hmem
      simp only [mkInstance]
      omega
    · show (ids ((List.range cfg.minInstances).map
        (fun k => mkInstance (s.nextId + k) now))).Nodup
      rw [ids_fresh_range]
      exact (List.nodup_range cfg.minInstances).map (fun a b hab => by omega)
    · simp
    · simpa using hmin
    · simp
  · rw [if_pos (by simp)]
    exact ⟨ha, hu, hlt, hnd, hund, hlen, hinit⟩

theorem initPool_initialized (cfg : PoolConfig) (now : Nat) (s : PoolState) :
    (initPool cfg now s).initialized = true := by
  unfold initPool
  split <;> simp_all

theorem initialized_of_mem (cfg : PoolConfig) (s : PoolState) (inst : BInstance)
    (h : Inv cfg s) (hmem : inst ∈ s.pool) : s.initialized = true := by
  cases h0 : s.initialized
  · rw [(h.2.2.2.2.2.2 h0).1] at hmem
    simp at hmem
  · rfl

theorem findInst_spec (pool : List BInstance) (i : Nat) (h : i ∈ ids pool) :
    findInst pool i ∈ pool ∧ (findInst pool i).id = i := by
  unfold findInst
  cases hf : pool.find? (fun inst => inst.id = i) with
  | none =>
      exfalso
      obtain ⟨inst, hmem, hid⟩ := (mem_ids pool i).mp h
      have := List.find?_eq_none.mp hf inst hmem
      simp [hid] at this
  | some a =>
      refine ⟨List.mem_of_find?_eq_some hf, ?_⟩
      simpa using List.find?_some hf

/-- Marking a tracked instance as in use (the final step of `acquire`)
preserves the basic invariant. -/
theorem inv_markInUse (cfg : PoolConfig) (now : Nat) (s : PoolState) (inst : BInstance)
    (h : Inv cfg s) (hmem : inst ∈ s.pool) :
    Inv cfg { s with inUse := insertId inst.id s.inUse, pool := touch s.pool inst.id now } := by
  obtain ⟨ha, hu, hlt, hnd, hund, hlen, hinit⟩ := h
  refine ⟨?_, ?_, ?_, ?_, ?_, ?_, ?_⟩
  · intro j hj
    rw [ids_touch]
    exact ha j hj
  · intro j hj
    rw [ids_touch]
    rcases (mem_insertId _ _ _).mp hj with rfl | hj'
    · exact (mem_ids _ _).mpr ⟨inst, hmem, rfl⟩
    · exact hu j hj'
  · intro inst' hmem'
    simp only [touch, List.mem_map] at hmem'
    obtain ⟨a, hamem, rfl⟩ := hmem'
    have := hlt a hamem
    by_cases hc : a.id = inst.id <;> simp [hc] <;> omega
  · rw [ids_touch]; exact hnd
  · exact insertId_nodup _ _ hund
  · rw [length_touch]; exact hlen
  · intro h0
    rw [(hinit h0).1] at hmem
    simp at hmem
/-- Appending a freshly created instance (under capacity) preserves the
basic invariant. -/
theorem inv_extend (cfg : PoolConfig) (now : Nat) (s : PoolState)
    (h : Inv cfg s) (hcap : s.pool.length < cfg.maxInstances)
    (hini : s.initialized = true) :
    Inv cfg { s with pool := s.pool ++ [mkInstance s.nextId now], nextId := s.nextId + 1 } := by
  obtain ⟨ha, hu, hlt, hnd, hund, hlen, hinit⟩ := h
  refine ⟨?_, ?_, ?_, ?_, ?_, ?_, ?_⟩
  · intro j hj
    rw [ids_append]
    exact List.mem_append_left _ (ha j hj)
  · intro j hj
    rw [ids_append]
    exact List.mem_append_left _ (hu j hj)
  · intro inst hmem
    rcases List.mem_append.mp hmem with hl | hr
    · exact Nat.lt_succ_of_lt (hlt inst hl)
    · simp only [List.mem_singleton] at hr
      subst hr
      simp [mkInstance]
  · rw [ids_append]
    rw [List.nodup_append]
    refine ⟨hnd, List.nodup_singleton _, ?_⟩
    intro j hj hj'
    simp only [ids, List.map_cons, List.map_nil, List.mem_singleton, mkInstance] at hj'
    subst hj'
    obtain ⟨inst, hmem, hid⟩ := (mem_ids _ _).mp hj
    exact absurd hid (Nat.ne_of_lt (hlt inst hmem))
  · exact hund
  · simpa using hcap
  · intro h0
    rw [hini] at h0
    simp at h0

theorem acquireFinish_connected (now : Nat) (s : PoolState) (inst : BInstance)
    (hc : inst.connected = true) :
    acquireFinish now s inst =
      ({ s with inUse := insertId inst.id s.inUse, pool := touch s.pool inst.id now },
       some inst.id) := by
  simp [acquireFinish, hc]

theorem acquireFinish_disconnected (now : Nat) (s : PoolState) (inst : BInstance)
    (hc : inst.connected = false) :
    acquireFinish now s inst =
      (let s2 : PoolState :=
        { removeInstance s inst.id with
          pool := (removeInstance s inst.id).pool ++ [mkInstance s.nextId now]
          nextId := s.nextId + 1 }
       ({ s2 with
          inUse := insertId s.nextId s2.inUse
          pool := touch s2.pool s.nextId now }, some s.nextId)) := by
  simp [acquireFinish, hc, mkInstance, removeInstance]

theorem inv_acquireFinish (cfg : PoolConfig) (now : Nat) (s : PoolState) (inst : BInstance)
    (h : Inv cfg s) (hmem : inst ∈ s.pool) (hcap : s.pool.length ≤ cfg.maxInstances) :
    Inv cfg (acquireFinish now s inst).1 := by
  cases hc : inst.connected
  · rw [acquireFinish_disconnected now s inst hc]
    have hini : s.initialized = true := initialized_of_mem cfg s inst h hmem
    have h' := inv_removeInstance cfg s inst.id h
    have hfl : (removeInstance s inst.id).pool.length < s.pool.length :=
      length_filter_lt s.pool inst.id ((mem_ids _ _).mpr ⟨inst, hmem, rfl⟩)
    have hcap' : (removeInstance s inst.id).pool.length < cfg.maxInstances :=
      lt_of_lt_of_le hfl hcap
    have hini' : (removeInstance s inst.id).initialized = true := hini
    have hnid : (removeInstance s inst.id).nextId = s.nextId := rfl
    have h2 := inv_extend cfg now (removeInstance s inst.id) h' hcap' hini'
    rw [hnid] at h2
    have hmem2 : mkInstance s.nextId now ∈
        (removeInstance s inst.id).pool ++ [mkInstance s.nextId now] :=
      List.mem_append_right _ (List.mem_singleton.mpr rfl)
    have h3 := inv_markInUse cfg now _ (mkInstance s.nextId now) h2 hmem2
    exact h3
  · rw [acquireFinish_connected now s inst hc]
    exact inv_markInUse cfg now s inst h hmem

theorem acquire_eq_cons (cfg : PoolConfig) (now : Nat) (s : PoolState) (i : Nat)
    (rest : List Nat) (hav : (initPool cfg now s).available = i :: rest) :
    acquire cfg now s =
      acquireFinish now { initPool cfg now s with available := rest }
        (findInst (initPool cfg now s).pool i) := by
  unfold acquire
  simp only [hav]

theorem acquire_eq_new (cfg : PoolConfig) (now : Nat) (s : PoolState)
    (hav : (initPool cfg now s).available = [])
    (hcap : (initPool cfg now s).pool.length < cfg.maxInstances) :
    acquire cfg now s =
      acquireFinish now
        { initPool cfg now s with
          pool := (initPool cfg now s).pool ++ [mkInstance (initPool cfg now s).nextId now]
          nextId := (initPool cfg now s).nextId + 1 }
        (mkInstance (initPool cfg now s).nextId now) := by
  unfold acquire
  simp only [hav, hcap, if_true]

theorem acquire_eq_blocked (cfg : PoolConfig) (now : Nat) (s : PoolState)
    (hav : (initPool cfg now s).available = [])
    (hcap : ¬(initPool cfg now s).pool.length < cfg.maxInstances) :
    acquire cfg now s = (initPool cfg now s, none) := by
  unfold acquire
  simp only [hav, hcap, if_false]

theorem inv_acquire (cfg : PoolConfig) (now : Nat) (s : PoolState)
    (hmin : cfg.minInstances ≤ cfg.maxInstances)
    (h : Inv cfg s) : Inv cfg (acquire cfg now s).1 := by
  have h1 := inv_initPool cfg now s hmin h
  have hini1 := initPool_initialized cfg now s
  cases hav : (initPool cfg now s).available with
  | cons i rest =>
      rw [acquire_eq_cons cfg now s i rest hav]
      have hisub : i ∈ ids (initPool cfg now s).pool := h1.1 i (by rw [hav]; simp)
      have hrest : ∀ j ∈ rest, j ∈ ids (initPool cfg now s).pool := by
        intro j hj
        exact h1.1 j (by rw [hav]; simp [hj])
      have h2 : Inv cfg { initPool cfg now s with available := rest } := by
        obtain ⟨ha, hu, hlt, hnd, hund, hlen, hinit⟩ := h1
        refine ⟨hrest, hu, hlt, hnd, hund, hlen, ?_⟩
        intro h0
        rw [hini1] at h0
        simp at h0
      have hf := findInst_spec (initPool cfg now s).pool i hisub
      exact inv_acquireFinish cfg now _ _ h2 hf.1 h1.2.2.2.2.2.1
  | nil =>
      by_cases hcap : (initPool cfg now s).pool.length < cfg.maxInstances
      · rw [acquire_eq_new cfg now s hav hcap]
        have h2 := inv_extend cfg now (initPool cfg now s) h1 hcap hini1
        have hmem2 : mkInstance (initPool cfg now s).nextId now ∈
            (initPool cfg now s).pool ++ [mkInstance (initPool cfg now s).nextId now] :=
          List.mem_append_right _ (List.mem_singleton.mpr rfl)
        exact inv_acquireFinish cfg now _ _ h2 hmem2 h2.2.2.2.2.2.1
      · rw [acquire_eq_blocked cfg now s hav hcap]
        exact h1

theorem release_eq_none (cfg : PoolConfig) (now : Nat) (s : PoolState) (i : Nat)
    (hf : s.pool.find? (fun inst => inst.id = i) = none) :
    release cfg now s i = s := by
  unfold release
  simp only [hf]

theorem release_eq_keep (cfg : PoolConfig) (now : Nat) (s : PoolState) (i : Nat)
    (inst : BInstance) (hf : s.pool.find? (fun inst => inst.id = i) = some inst)
    (hkeep : ¬(now - inst.createdAt > cfg.instanceTimeout ∨
               inst.usageCount > MAX_USAGE_COUNT)) :
    release cfg now s i =
      { s with
        inUse := s.inUse.filter (fun j => j ≠ inst.id)
        available := inst.id :: s.available } := by
  unfold release
  simp only [hf, hkeep, if_false]

theorem release_eq_retire (cfg : PoolConfig) (now : Nat) (s : PoolState) (i : Nat)
    (inst : BInstance) (hf : s.pool.find? (fun inst => inst.id = i) = some inst)
    (hret : now - inst.createdAt > cfg.instanceTimeout ∨
            inst.usageCount > MAX_USAGE_COUNT) :
    release cfg now s i =
      if (removeInstance s inst.id).pool.length < cfg.minInstances then
        { removeInstance s inst.id with
          pool := (removeInstance s inst.id).pool ++
            [mkInstance (removeInstance s inst.id).nextId now]
          available := (removeInstance s inst.id).nextId ::
            (removeInstance s inst.id).available
          nextId := (removeInstance s inst.id).nextId + 1 }
      else removeInstance s inst.id := by
  unfold release
  simp only [hf, hret, if_true, mkInstance]

/-- Pushing the id of a tracked instance onto `available` preserves the
basic invariant of an initialized pool. -/
theorem inv_consAvail (cfg : PoolConfig) (s : PoolState) (j : Nat)
    (h : Inv cfg s) (hj : j ∈ ids s.pool) (hini : s.initialized = true) :
    Inv cfg { s with available := j :: s.available } := by
  obtain ⟨ha, hu, hlt, hnd, hund, hlen, hinit⟩ := h
  refine ⟨?_, hu, hlt, hnd, hund, hlen, ?_⟩
  · intro k hk
    rcases List.mem_cons.mp hk with rfl | hk'
    · exact hj
    · exact ha k hk'
  · intro h0
    rw [hini] at h0
    simp at h0

theorem inv_release (cfg : PoolConfig) (now : Nat) (s : PoolState) (i : Nat)
    (hmin : cfg.minInstances ≤ cfg.maxInstances)
    (h : Inv cfg s) : Inv cfg (release cfg now s i) := by
  cases hf : s.pool.find? (fun inst => inst.id = i) with
  | none =>
      rw [release_eq_none cfg now s i hf]
      exact h
  | some inst =>
      have hmemP : inst ∈ s.pool := List.mem_of_find?_eq_some hf
      have hini : s.initialized = true := initialized_of_mem cfg s inst h hmemP
      by_cases hret : now - inst.createdAt > cfg.instanceTimeout ∨
          inst.usageCount > MAX_USAGE_COUNT
      · rw [release_eq_retire cfg now s i inst hf hret]
        have h' := inv_removeInstance cfg s inst.id h
        by_cases hrep : (removeInstance s inst.id).pool.length < cfg.minInstances
        · rw [if_pos hrep]
          have hcap' : (removeInstance s inst.id).pool.length < cfg.maxInstances :=
            lt_of_lt_of_le hrep hmin
          have h2 := inv_extend cfg now (removeInstance s inst.id) h' hcap' hini
          have hjm : (removeInstance s inst.id).nextId ∈
              ids ((removeInstance s inst.id).pool ++
                [mkInstance (removeInstance s inst.id).nextId now]) := by
            rw [ids_append]
            exact List.mem_append_right _ (by simp [ids, mkInstance])
          exact inv_consAvail cfg _ _ h2 hjm hini
        · rw [if_neg hrep]
          exact h'
      · rw [release_eq_keep cfg now s i inst hf hret]
        obtain ⟨ha, hu, hlt, hnd, hund, hlen, hinit⟩ := h
        refine ⟨?_, ?_, hlt, hnd, ?_, hlen, ?_⟩
        · intro k hk
          rcases List.mem_cons.mp hk with rfl | hk'
          · exact (mem_ids _ _).mpr ⟨inst, hmemP, rfl⟩
          · exact ha k hk'
        · intro k hk
          exact hu k (List.mem_filter.mp hk).1
        · exact hund.sublist (List.filter_sublist _)
        · intro h0
          rw [hini] at h0
          simp at h0

theorem inv_step (cfg : PoolConfig) (s : PoolState) (op : PoolOp)
    (hmin : cfg.minInstances ≤ cfg.maxInstances)
    (h : Inv cfg s) : Inv cfg (step cfg s op) := by
  cases op with
  | opAcquire now => exact inv_acquire cfg now s hmin h
  | opRelease now i => exact inv_release cfg now s i hmin h
  | opRemove i => exact inv_removeInstance cfg s i h
  | opShutdown => exact inv_shutdownPool cfg s h
  | opDisconnect i => exact inv_disconnectInst cfg s i h

theorem inv_runOps (cfg : PoolConfig) (s : PoolState) (ops : List PoolOp)
    (hmin : cfg.minInstances ≤ cfg.maxInstances)
    (h : Inv cfg s) : Inv cfg (runOps cfg s ops) := by
  induction ops generalizing s with
  | nil => exact h
  | cons op rest ih => exact ih (step cfg s op) (inv_step cfg s op hmin h)

theorem inv_emptyPool (cfg : PoolConfig) : Inv cfg emptyPool := by
  refine ⟨?_, ?_, ?_, ?_, ?_, ?_, ?_⟩ <;> simp [emptyPool, ids]

/-! ## Browser pool: a retired id can never come back

Ids of retired instances are below the id generator and outside the
tracked pool; every operation preserves both facts, and `acquire` can
only return an id that is tracked afterwards or freshly generated. -/

theorem absent_initPool (cfg : PoolConfig) (now : Nat) (s : PoolState) (r : Nat)
    (hr : r < s.nextId) (habs : r ∉ ids s.pool) :
    r < (initPool cfg now s).nextId ∧ r ∉ ids (initPool cfg now s).pool := by
  unfold initPool
  cases hi : s.initialized
  · rw [if_neg (by simp)]
    constructor
    · show r < s.nextId + cfg.minInstances
      omega
    · show r ∉ ids (s.pool ++
        (List.range cfg.minInstances).map (fun k => mkInstance (s.nextId + k) now))
      rw [ids_append]
      intro hmem
      rcases List.mem_append.mp hmem with hl | hrr
      · exact habs hl
      · rw [ids_fresh_range, mem_map_range_add] at hrr
        omega
  · rw [if_pos (by simp)]
    exact ⟨hr, habs⟩

theorem absent_acquireFinish (now : Nat) (s : PoolState) (inst : BInstance) (r : Nat)
    (hr : r < s.nextId) (habs : r ∉ ids s.pool) :
    r < (acquireFinish now s inst).1.nextId ∧
    r ∉ ids (acquireFinish now s inst).1.pool := by
  cases hc : inst.connected
  · rw [acquireFinish_disconnected now s inst hc]
    constructor
    · show r < s.nextId + 1
      omega
    · show r ∉ ids (touch ((removeInstance s inst.id).pool ++
        [mkInstance s.nextId now]) s.nextId now)
      rw [ids_touch, ids_append]
      intro hmem
      rcases List.mem_append.mp hmem with hl | hrr
      · exact habs (ids_sub_filter s.pool inst.id r hl)
      · simp only [ids, List.map_cons, List.map_nil, List.mem_singleton, mkInstance] at hrr
        omega
  · rw [acquireFinish_connected now s inst hc]
    refine ⟨hr, ?_⟩
    show r ∉ ids (touch s.pool inst.id now)
    rw [ids_touch]
    exact habs

theorem absent_step (cfg : PoolConfig) (s : PoolState) (op : PoolOp) (r : Nat)
    (hr : r < s.nextId) (habs : r ∉ ids s.pool) :
    r < (step cfg s op).nextId ∧ r ∉ ids (step cfg s op).pool := by
  cases op with
  | opAcquire now =>
      obtain ⟨hr1, habs1⟩ := absent_initPool cfg now s r hr habs
      show r < (acquire cfg now s).1.nextId ∧ r ∉ ids (acquire cfg now s).1.pool
      cases hav : (initPool cfg now s).available with
      | cons i rest =>
          rw [acquire_eq_cons cfg now s i rest hav]
          exact absent_acquireFinish now _ _ r hr1 habs1
      | nil =>
          by_cases hcap : (initPool cfg now s).pool.length < cfg.maxInstances
          · rw [acquire_eq_new cfg now s hav hcap]
            refine absent_acquireFinish now _ _ r ?_ ?_
            · show r < (initPool cfg now s).nextId + 1
              omega
            · show r ∉ ids ((initPool cfg now s).pool ++
                [mkInstance (initPool cfg now s).nextId now])
              rw [ids_append]
              intro hmem
              rcases List.mem_append.mp hmem with hl | hrr
              · exact habs1 hl
              · simp only [ids, List.map_cons, List.map_nil, List.mem_singleton,
                  mkInstance] at hrr
                omega
          · rw [acquire_eq_blocked cfg now s hav hcap]
            exact ⟨hr1, habs1⟩
  | opRelease now i =>
      show r < (release cfg now s i).nextId ∧ r ∉ ids (release cfg now s i).pool
      cases hf : s.pool.find? (fun inst => inst.id = i) with
      | none =>
          rw [release_eq_none cfg now s i hf]
          exact ⟨hr, habs⟩
      | some inst =>
          by_cases hret : now - inst.createdAt > cfg.instanceTimeout ∨
              inst.usageCount > MAX_USAGE_COUNT
          · rw [release_eq_retire cfg now s i inst hf hret]
            by_cases hrep : (removeInstance s inst.id).pool.length < cfg.minInstances
            · rw [if_pos hrep]
              constructor
              · show r < s.nextId + 1
                omega
              · show r ∉ ids ((removeInstance s inst.id).pool ++
                  [mkInstance s.nextId now])
                rw [ids_append]
                intro hmem
                rcases List.mem_append.mp hmem with hl | hrr
                · exact habs (ids_sub_filter s.pool inst.id r hl)
                · simp only [ids, List.map_cons, List.map_nil, List.mem_singleton,
                    mkInstance] at hrr
                  omega
            · rw [if_neg hrep]
              exact ⟨hr, fun hm => habs (ids_sub_filter s.pool inst.id r hm)⟩
          · rw [release_eq_keep cfg now s i inst hf hret]
            exact ⟨hr, habs⟩
  | opRemove i =>
      exact ⟨hr, fun hm => habs (ids_sub_filter s.pool i r hm)⟩
  | opShutdown =>
      refine ⟨hr, ?_⟩
      show r ∉ ids []
      simp [ids]
  | opDisconnect i =>
      refine ⟨hr, ?_⟩
      show r ∉ ids (disconnectInst s i).pool
      rw [ids_disconnect]
      exact habs

theorem absent_runOps (cfg : PoolConfig) (s : PoolState) (ops : List PoolOp) (r : Nat)
    (hr : r < s.nextId) (habs : r ∉ ids s.pool) :
    r < (runOps cfg s ops).nextId ∧ r ∉ ids (runOps cfg s ops).pool := by
  induction ops generalizing s with
  | nil => exact ⟨hr, habs⟩
  | cons op rest ih =>
      obtain ⟨h1, h2⟩ := absent_step cfg s op r hr habs
      exact ih (step cfg s op) h1 h2

theorem acquireFinish_ret_ne (now : Nat) (s : PoolState) (inst : BInstance) (r : Nat)
    (hne1 : inst.id ≠ r) (hne2 : s.nextId ≠ r) :
    (acquireFinish now s inst).2 ≠ some r := by
  cases hc : inst.connected
  · rw [acquireFinish_disconnected now s inst hc]
    show some s.nextId ≠ some r
    intro hcon
    exact hne2 (Option.some.inj hcon)
  · rw [acquireFinish_connected now s inst hc]
    intro hcon
    exact hne1 (Option.some.inj hcon)

theorem acquire_ne_absent (cfg : PoolConfig) (now : Nat) (s : PoolState) (r : Nat)
    (hmin : cfg.minInstances ≤ cfg.maxInstances) (h : Inv cfg s)
    (hr : r < s.nextId) (habs : r ∉ ids s.pool) :
    (acquire cfg now s).2 ≠ some r := by
  have h1 := inv_initPool cfg now s hmin h
  obtain ⟨hr1, habs1⟩ := absent_initPool cfg now s r hr habs
  cases hav : (initPool cfg now s).available with
  | cons i rest =>
      rw [acquire_eq_cons cfg now s i rest hav]
      have hisub : i ∈ ids (initPool cfg now s).pool := h1.1 i (by rw [hav]; simp)
      have hf := findInst_spec (initPool cfg now s).pool i hisub
      apply acquireFinish_ret_ne
      · rw [hf.2]
        intro heq
        exact habs1 (heq ▸ hisub)
      · exact Nat.ne_of_gt hr1
  | nil =>
      by_cases hcap : (initPool cfg now s).pool.length < cfg.maxInstances
      · rw [acquire_eq_new cfg now s hav hcap]
        apply acquireFinish_ret_ne
        · show (initPool cfg now s).nextId ≠ r
          omega
        · show (initPool cfg now s).nextId + 1 ≠ r
          omega
      · rw [acquire_eq_blocked cfg now s hav hcap]
        simp

theorem find?_id_self (pool : List BInstance) (inst : BInstance)
    (hnd : (ids pool).Nodup) (hmem : inst ∈ pool) :
    pool.find? (fun x => x.id = inst.id) = some inst := by
  induction pool with
  | nil => simp at hmem
  | cons hd tl ih =>
      have hcons : hd.id ∉ ids tl ∧ (ids tl).Nodup := by
        have hids : ids (hd :: tl) = hd.id :: ids tl := rfl
        rw [hids, List.nodup_cons] at hnd
        exact hnd
      by_cases hc : hd.id = inst.id
      · have heq : hd = inst := by
          rcases List.mem_cons.mp hmem with h | htl
          · exact h.symm
          · exact absurd ((mem_ids tl inst.id).mpr ⟨inst, htl, rfl⟩) (hc ▸ hcons.1)
        rw [heq]
        exact List.find?_cons_of_pos _ (by simp)
      · rw [List.find?_cons_of_neg _ (by simp [hc])]
        apply ih hcons.2
        rcases List.mem_cons.mp hmem with h | htl
        · exact absurd (congrArg BInstance.id h.symm) hc
        · exact htl

/-! ## Browser pool: preservation of the exactly-one-state partition -/

theorem mem_touch (pool : List BInstance) (i now : Nat) (b : BInstance)
    (hb : b ∈ touch pool i now) : ∃ a ∈ pool, a.id = b.id := by
  simp only [touch, List.mem_map] at hb
  obtain ⟨a, hamem, rfl⟩ := hb
  refine ⟨a, hamem, ?_⟩
  by_cases hc : a.id = i <;> simp [hc]

theorem part_initPool (cfg : PoolConfig) (now : Nat) (s : PoolState)
    (h : Inv cfg s) (hp : Partitioned s) : Partitioned (initPool cfg now s) := by
  unfold initPool
  cases hi : s.initialized
  · obtain ⟨e1, e2, e3⟩ := h.2.2.2.2.2.2 hi
    rw [if_neg (by simp)]
    refine ⟨?_, ?_, ?_⟩
    · show ((ids ((List.range cfg.minInstances).map
        (fun k => mkInstance (s.nextId + k) now))).reverse ++ s.available).Nodup
      rw [e2, List.append_nil, List.nodup_reverse, ids_fresh_range]
      exact (List.nodup_range cfg.minInstances).map (fun a b hab => by omega)
    · intro j _ hcon
      rw [e3] at hcon
      simp at hcon
    · intro b hb
      left
      show b.id ∈ (ids ((List.range cfg.minInstances).map
        (fun k => mkInstance (s.nextId + k) now))).reverse ++ s.available
      have hb' : b ∈ s.pool ++ (List.range cfg.minInstances).map
        (fun k => mkInstance (s.nextId + k) now) := hb
      rw [e1, List.nil_append] at hb'
      rw [List.mem_append, List.mem_reverse]
      exact .inl ((mem_ids _ _).mpr ⟨b, hb', rfl⟩)
  · rw [if_pos (by simp)]
    exact hp

theorem part_acquireFinish (now : Nat) (s : PoolState) (inst : BInstance)
    (havsub : ∀ j ∈ s.available, j ∈ ids s.pool)
    (hlt : ∀ b ∈ s.pool, b.id < s.nextId)
    (hand : s.available.Nodup)
    (hdisj : ∀ j ∈ s.available, j ∉ s.inUse)
    (hcover : ∀ b ∈ s.pool, b.id ∈ s.available ∨ b.id ∈ s.inUse ∨ b.id = inst.id)
    (hnotav : inst.id ∉ s.available) :
    Partitioned (acquireFinish now s inst).1 := by
  cases hc : inst.connected
  · rw [acquireFinish_disconnected now s inst hc]
    refine ⟨?_, ?_, ?_⟩
    · show (s.available.filter (fun j => j ≠ inst.id)).Nodup
      exact hand.sublist (List.filter_sublist _)
    · intro j hj hcon
      have hj1 := List.mem_filter.mp hj
      rcases (mem_insertId _ _ _).mp hcon with heq | hin
      · obtain ⟨b, hb, hid⟩ := (mem_ids _ _).mp (havsub j hj1.1)
        have := hlt b hb
        omega
      · exact hdisj j hj1.1 (List.mem_filter.mp hin).1
    · intro b hb
      obtain ⟨a, hamem, hid⟩ := mem_touch _ _ _ b hb
      rw [← hid]
      rcases List.mem_append.mp hamem with hl | hr
      · have ha' := List.mem_filter.mp hl
        have hane : a.id ≠ inst.id := by simpa using ha'.2
        rcases hcover a ha'.1 with h1 | h2 | h3
        · exact .inl (List.mem_filter.mpr ⟨h1, by simpa using hane⟩)
        · exact .inr ((mem_insertId _ _ _).mpr
            (.inr (List.mem_filter.mpr ⟨h2, by simpa using hane⟩)))
        · exact absurd h3 hane
      · simp only [List.mem_singleton] at hr
        subst hr
        exact .inr ((mem_insertId _ _ _).mpr (.inl rfl))
  · rw [acquireFinish_connected now s inst hc]
    refine ⟨hand, ?_, ?_⟩
    · intro j hj hcon
      rcases (mem_insertId _ _ _).mp hcon with heq | hin
      · exact hnotav (heq ▸ hj)
      · exact hdisj j hj hin
    · intro b hb
      obtain ⟨a, hamem, hid⟩ := mem_touch _ _ _ b hb
      rw [← hid]
      rcases hcover a hamem with h1 | h2 | h3
      · exact .inl h1
      · exact .inr ((mem_insertId _ _ _).mpr (.inr h2))
      · exact .inr ((mem_insertId _ _ _).mpr (.inl h3))

theorem part_acquire (cfg : PoolConfig) (now : Nat) (s : PoolState)
    (hmin : cfg.minInstances ≤ cfg.maxInstances)
    (hX : XInv cfg s) : Partitioned (acquire cfg now s).1 := by
  obtain ⟨hI, hP⟩ := hX
  have hI1 := inv_initPool cfg now s hmin hI
  have hP1 := part_initPool cfg now s hI hP
  obtain ⟨ha1, hu1, hlt1, hnd1, hund1, hlen1, hinit1⟩ := hI1
  obtain ⟨hand1, hdisj1, hcover1⟩ := hP1
  cases hav : (initPool cfg now s).available with
  | cons i rest =>
      rw [acquire_eq_cons cfg now s i rest hav]
      have hisub : i ∈ ids (initPool cfg now s).pool := ha1 i (by rw [hav]; simp)
      have hf := findInst_spec (initPool cfg now s).pool i hisub
      have hconsnd : i ∉ rest ∧ rest.Nodup := by
        rw [hav, List.nodup_cons] at hand1
        exact hand1
      apply part_acquireFinish
      · intro j hj
        exact ha1 j (by rw [hav]; simp [hj])
      · exact hlt1
      · exact hconsnd.2
      · intro j hj
        exact hdisj1 j (by rw [hav]; simp [hj])
      · intro b hb
        rcases hcover1 b hb with h1 | h2
        · rw [hav] at h1
          rcases List.mem_cons.mp h1 with heq | htl
          · exact .inr (.inr (by rw [hf.2, heq]))
          · exact .inl htl
        · exact .inr (.inl h2)
      · rw [hf.2]
        exact hconsnd.1
  | nil =>
      by_cases hcap : (initPool cfg now s).pool.length < cfg.maxInstances
      · rw [acquire_eq_new cfg now s hav hcap]
        apply part_acquireFinish
        · intro j hj
          rw [hav] at hj
          simp at hj
        · intro b hb
          rcases List.mem_append.mp hb with hl | hr
          · exact Nat.lt_succ_of_lt (hlt1 b hl)
          · simp only [List.mem_singleton] at hr
            subst hr
            simp [mkInstance]
        · rw [hav]
          exact List.nodup_nil
        · intro j hj
          rw [hav] at hj
          simp at hj
        · intro b hb
          rcases List.mem_append.mp hb with hl | hr
          · rcases hcover1 b hl with h1 | h2
            · rw [hav] at h1
              simp at h1
            · exact .inr (.inl h2)
          · simp only [List.mem_singleton] at hr
            subst hr
            exact .inr (.inr rfl)
        · rw [hav]
          simp
      · rw [acquire_eq_blocked cfg now s hav hcap]
        exact ⟨hand1, hdisj1, hcover1⟩

theorem part_release (cfg : PoolConfig) (now : Nat) (s : PoolState) (i : Nat)
    (hguard : i ∈ s.inUse ∨ i ∉ ids s.pool)
    (hX : XInv cfg s) : Partitioned (release cfg now s i) := by
  obtain ⟨⟨ha, hu, hlt, hnd, hund, hlen, hinit⟩, hand, hdisj, hcover⟩ := hX
  cases hf : s.pool.find? (fun inst => inst.id = i) with
  | none =>
      rw [release_eq_none cfg now s i hf]
      exact ⟨hand, hdisj, hcover⟩
  | some inst =>
      have hmemP : inst ∈ s.pool := List.mem_of_find?_eq_some hf
      have hidi : inst.id = i := by simpa using List.find?_some hf
      have hinuse : inst.id ∈ s.inUse := by
        rcases hguard with h1 | h2
        · exact hidi ▸ h1
        · exact absurd ((mem_ids _ _).mpr ⟨inst, hmemP, hidi⟩) h2
      by_cases hret : now - inst.createdAt > cfg.instanceTimeout ∨
          inst.usageCount > MAX_USAGE_COUNT
      · rw [release_eq_retire cfg now s i inst hf hret]
        by_cases hrep : (removeInstance s inst.id).pool.length < cfg.minInstances
        · rw [if_pos hrep]
          refine ⟨?_, ?_, ?_⟩
          · show (s.nextId :: s.available.filter (fun j => j ≠ inst.id)).Nodup
            rw [List.nodup_cons]
            constructor
            · intro hm
              obtain ⟨b, hb, hid⟩ :=
                (mem_ids _ _).mp (ha _ (List.mem_filter.mp hm).1)
              have := hlt b hb
              omega
            · exact hand.sublist (List.filter_sublist _)
          · intro j hj hcon
            have hcon' := List.mem_filter.mp hcon
            have hju : j ∈ s.inUse := hcon'.1
            rcases List.mem_cons.mp hj with heq | htl
            · have heq' : j = s.nextId := heq
              obtain ⟨b, hb, hid⟩ := (mem_ids _ _).mp (hu j hju)
              have := hlt b hb
              omega
            · exact hdisj j (List.mem_filter.mp htl).1 hju
          · intro b hb
            rcases List.mem_append.mp hb with hl | hr
            · have hb' := List.mem_filter.mp hl
              have hbne : b.id ≠ inst.id := by simpa using hb'.2
              rcases hcover b hb'.1 with h1 | h2
              · exact .inl (List.mem_cons.mpr
                  (.inr (List.mem_filter.mpr ⟨h1, by simpa using hbne⟩)))
              · exact .inr (List.mem_filter.mpr ⟨h2, by simpa using hbne⟩)
            · simp only [List.mem_singleton] at hr
              subst hr
              exact .inl (List.mem_cons.mpr (.inl rfl))
        · rw [if_neg hrep]
          refine ⟨hand.sublist (List.filter_sublist _), ?_, ?_⟩
          · intro j hj hcon
            exact hdisj j (List.mem_filter.mp hj).1 (List.mem_filter.mp hcon).1
          · intro b hb
            have hb' := List.mem_filter.mp hb
            have hbne : b.id ≠ inst.id := by simpa using hb'.2
            rcases hcover b hb'.1 with h1 | h2
            · exact .inl (List.mem_filter.mpr ⟨h1, by simpa using hbne⟩)
            · exact .inr (List.mem_filter.mpr ⟨h2, by simpa using hbne⟩)
      · rw [release_eq_keep cfg now s i inst hf hret]
        refine ⟨?_, ?_, ?_⟩
        · show (inst.id :: s.available).Nodup
          rw [List.nodup_cons]
          exact ⟨fun hm => hdisj inst.id hm hinuse, hand⟩
        · intro j hj hcon
          have hcon' := List.mem_filter.mp hcon
          have hjne : j ≠ inst.id := by simpa using hcon'.2
          rcases List.mem_cons.mp hj with heq | htl
          · exact hjne heq
          · exact hdisj j htl hcon'.1
        · intro b hb
          by_cases hbid : b.id = inst.id
          · exact .inl (List.mem_cons.mpr (.inl hbid))
          · rcases hcover b hb with h1 | h2
            · exact .inl (List.mem_cons.mpr (.inr h1))
            · exact .inr (List.mem_filter.mpr ⟨h2, by simpa using hbid⟩)

theorem part_removeInstance (s : PoolState) (i : Nat) (hp : Partitioned s) :
    Partitioned (removeInstance s i) := by
  obtain ⟨hand, hdisj, hcover⟩ := hp
  refine ⟨hand.sublist (List.filter_sublist _), ?_, ?_⟩
  · intro j hj hcon
    exact hdisj j (List.mem_filter.mp hj).1 (List.mem_filter.mp hcon).1
  · intro b hb
    have hb' := List.mem_filter.mp hb
    have hbne : b.id ≠ i := by simpa using hb'.2
    rcases hcover b hb'.1 with h1 | h2
    · exact .inl (List.mem_filter.mpr ⟨h1, by simpa using hbne⟩)
    · exact .inr (List.mem_filter.mpr ⟨h2, by simpa using hbne⟩)

theorem part_shutdownPool (s : PoolState) : Partitioned (shutdownPool s) := by
  refine ⟨?_, ?_, ?_⟩ <;> simp [shutdownPool]

theorem part_disconnectInst (s : PoolState) (i : Nat) (hp : Partitioned s) :
    Partitioned (disconnectInst s i) := by
  obtain ⟨hand, hdisj, hcover⟩ := hp
  refine ⟨hand, hdisj, ?_⟩
  intro b hb
  simp only [disconnectInst, List.mem_map] at hb
  obtain ⟨a, hamem, rfl⟩ := hb
  have hid : (if a.id = i then { a with connected := false } else a).id = a.id := by
    by_cases hc : a.id = i <;> simp [hc]
  rw [hid]
  exact hcover a hamem

theorem xinv_step (cfg : PoolConfig) (s : PoolState) (op : PoolOp)
    (hmin : cfg.minInstances ≤ cfg.maxInstances)
    (hX : XInv cfg s) (hg : guardOk s op) : XInv cfg (step cfg s op) := by
  refine ⟨inv_step cfg s op hmin hX.1, ?_⟩
  cases op with
  | opAcquire now => exact part_acquire cfg now s hmin hX
  | opRelease now i => exact part_release cfg now s i hg hX
  | opRemove i => exact part_removeInstance s i hX.2
  | opShutdown => exact part_shutdownPool s
  | opDisconnect i => exact part_disconnectInst s i hX.2

/-! ## Claims about the browser pool -/

/-- C4 counterexample: an instance whose usage count has exactly reached
the configured maximum (`MAX_USAGE_COUNT = 100`) is not retired when
released — the code tests with strict `>` — and the immediately
following `acquire` hands it out again. -/
theorem pool_retirement_cex :
    (⟨0, 0, 0, 100, true⟩ : BInstance).usageCount = MAX_USAGE_COUNT ∧
    0 ∈ ids (release ⟨1, 5, 1800000⟩ 5
      ⟨[⟨0, 0, 0, 100, true⟩], [], [0], true, 1⟩ 0).pool ∧
    (acquire ⟨1, 5, 1800000⟩ 5 (release ⟨1, 5, 1800000⟩ 5
      ⟨[⟨0, 0, 0, 100, true⟩], [], [0], true, 1⟩ 0)).2 = some 0 := by
  decide

/-- C4 (amended): a tracked instance whose age strictly exceeds the
configured time-to-live, or whose usage count strictly exceeds the
configured maximum usage count, is retired when released — it leaves the
tracked pool — and no later `acquire`, after any further sequence of pool
operations, ever returns it. -/
theorem pool_retirement_claim (cfg : PoolConfig) (s : PoolState) (now : Nat)
    (inst : BInstance)
    (hmin : cfg.minInstances ≤ cfg.maxInstances) (hInv : Inv cfg s)
    (hmem : inst ∈ s.pool)
    (hret : now - inst.createdAt > cfg.instanceTimeout ∨
            inst.usageCount > MAX_USAGE_COUNT) :
    inst.id ∉ ids (release cfg now s inst.id).pool ∧
    ∀ ops now2,
      (acquire cfg now2 (runOps cfg (release cfg now s inst.id) ops)).2 ≠
        some inst.id := by
  have hlt : inst.id < s.nextId := hInv.2.2.1 inst hmem
  have hfind := find?_id_self s.pool inst hInv.2.2.2.1 hmem
  have hkey : inst.id < (release cfg now s inst.id).nextId ∧
      inst.id ∉ ids (release cfg now s inst.id).pool := by
    rw [release_eq_retire cfg now s inst.id inst hfind hret]
    by_cases hrep : (removeInstance s inst.id).pool.length < cfg.minInstances
    · rw [if_pos hrep]
      constructor
      · show inst.id < s.nextId + 1
        omega
      · show inst.id ∉ ids ((removeInstance s inst.id).pool ++ [mkInstance s.nextId now])
        rw [ids_append]
        intro hm
        rcases List.mem_append.mp hm with hl | hrr
        · exact not_mem_ids_filter s.pool inst.id hl
        · simp only [ids, List.map_cons, List.map_nil, List.mem_singleton,
            mkInstance] at hrr
          omega
    · rw [if_neg hrep]
      exact ⟨hlt, not_mem_ids_filter s.pool inst.id⟩
  refine ⟨hkey.2, ?_⟩
  intro ops now2
  have hInv' := inv_release cfg now s inst.id hmin hInv
  have habs := absent_runOps cfg (release cfg now s inst.id) ops inst.id hkey.1 hkey.2
  have hInv'' := inv_runOps cfg (release cfg now s inst.id) ops hmin hInv'
  exact acquire_ne_absent cfg now2 _ inst.id hmin hInv'' habs.1 habs.2

theorem pool_retirement_claim_witness :
    (0 : Nat) ∉ ids (release ⟨1, 5, 1800000⟩ 5
      ⟨[⟨0, 0, 0, 101, true⟩], [], [0], true, 1⟩ 0).pool ∧
    (acquire ⟨1, 5, 1800000⟩ 7 (runOps ⟨1, 5, 1800000⟩ (release ⟨1, 5, 1800000⟩ 5
      ⟨[⟨0, 0, 0, 101, true⟩], [], [0], true, 1⟩ 0) [])).2 ≠ some 0 := by
  have h := pool_retirement_claim ⟨1, 5, 1800000⟩
    ⟨[⟨0, 0, 0, 101, true⟩], [], [0], true, 1⟩ 5 ⟨0, 0, 0, 101, true⟩
    (by decide) (by unfold Inv ids; decide) (by decide) (by decide)
  exact ⟨h.1, h.2 [] 7⟩

/-- C6 counterexample: releasing the same in-pool instance twice in a row
puts its id into the available list twice (release checks only pool
membership, not in-use membership), so the instance is in more than one
state at once — the exactly-one-state invariant fails under double
release. -/
theorem pool_partition_cex :
    2 ≤ ((runOps ⟨1, 5, 1800000⟩ emptyPool
      [.opAcquire 0, .opRelease 1 0, .opRelease 2 0]).available.count 0) ∧
    ¬(runOps ⟨1, 5, 1800000⟩ emptyPool
      [.opAcquire 0, .opRelease 1 0, .opRelease 2 0]).available.Nodup := by
  decide

/-- C6 (amended): provided `release` is called only with handles that are
currently in use (or foreign handles, on which it no-ops), every pool
operation preserves the partition invariant — each tracked instance is in
exactly one of available/in-use, with no duplicates in the available set —
and an id that has been retired (untracked and below the id generator) is
never returned by any later acquire, after any sequence of operations.
Releasing an already-idle instance breaks the partition by duplicating
its id in the available set. -/
theorem pool_partition_claim (cfg : PoolConfig) (s : PoolState)
    (hmin : cfg.minInstances ≤ cfg.maxInstances) (hX : XInv cfg s) :
    (∀ op, guardOk s op → XInv cfg (step cfg s op)) ∧
    (∀ r, r < s.nextId → r ∉ ids s.pool →
      ∀ ops now2, (acquire cfg now2 (runOps cfg s ops)).2 ≠ some r) := by
  constructor
  · intro op hg
    exact xinv_step cfg s op hmin hX hg
  · intro r hr habs ops now2
    have h2 := absent_runOps cfg s ops r hr habs
    have hInv2 := inv_runOps cfg s ops hmin hX.1
    exact acquire_ne_absent cfg now2 _ r hmin hInv2 h2.1 h2.2

theorem pool_partition_claim_witness :
    XInv ⟨1, 5, 1800000⟩ (step ⟨1, 5, 1800000⟩ emptyPool (.opAcquire 0)) := by
  have h := pool_partition_claim ⟨1, 5, 1800000⟩ emptyPool (by decide)
    (by unfold XInv Inv Partitioned ids; decide)
  exact h.1 (.opAcquire 0) trivial

/-- C9: releasing a browser handle that belongs to no tracked instance
returns normally and leaves the pool state — tracked list, available set
and in-use set — completely unchanged. -/
theorem pool_foreign_release_claim (cfg : PoolConfig) (now : Nat) (s : PoolState)
    (i : Nat) (h : i ∉ ids s.pool) : release cfg now s i = s := by
  apply release_eq_none
  rw [List.find?_eq_none]
  intro x hx
  simp only [decide_eq_true_eq]
  intro heq
  exact h ((mem_ids _ _).mpr ⟨x, hx, heq⟩)

theorem pool_foreign_release_claim_witness :
    release ⟨1, 5, 1800000⟩ 3 ⟨[⟨0, 0, 0, 1, true⟩], [0], [], true, 1⟩ 99 =
      ⟨[⟨0, 0, 0, 1, true⟩], [0], [], true, 1⟩ :=
  pool_foreign_release_claim ⟨1, 5, 1800000⟩ 3
    ⟨[⟨0, 0, 0, 1, true⟩], [0], [], true, 1⟩ 99 (by decide)

/-- C5 counterexample: a pool configured with `minInstances = 6` above
`maxInstances = 5` tracks 6 instances after the very first `acquire`
(initialization creates `minInstances` instances unconditionally), so the
tracked count exceeds the configured maximum. -/
theorem pool_capacity_cex :
    ¬((runOps ⟨6, 5, 1800000⟩ emptyPool [.opAcquire 0]).pool.length ≤ 5) := by
  decide

/-- C5 (amended): provided `minInstances ≤ maxInstances`, every sequence
of pool operations started from a fresh pool keeps both the number of
tracked instances and the number of in-use instances at or below
`maxInstances`. -/
theorem pool_capacity_claim (cfg : PoolConfig) (ops : List PoolOp)
    (hmin : cfg.minInstances ≤ cfg.maxInstances) :
    (runOps cfg emptyPool ops).pool.length ≤ cfg.maxInstances ∧
    (runOps cfg emptyPool ops).inUse.length ≤ cfg.maxInstances := by
  have h := inv_runOps cfg emptyPool ops hmin (inv_emptyPool cfg)
  refine ⟨h.2.2.2.2.2.1, ?_⟩
  have hsub : (runOps cfg emptyPool ops).inUse ⊆
      ids (runOps cfg emptyPool ops).pool := fun j hj => h.2.1 j hj
  have hnd : (runOps cfg emptyPool ops).inUse.Nodup := h.2.2.2.2.1
  have hlen := (List.subperm_of_subset hnd hsub).length_le
  have hids : (ids (runOps cfg emptyPool ops).pool).length =
      (runOps cfg emptyPool ops).pool.length := by simp [ids]
  have hpl := h.2.2.2.2.2.1
  omega

theorem pool_capacity_claim_witness :
    (runOps ⟨1, 5, 1800000⟩ emptyPool [.opAcquire 0]).pool.length ≤ 5 ∧
    (runOps ⟨1, 5, 1800000⟩ emptyPool [.opAcquire 0]).inUse.length ≤ 5 :=
  pool_capacity_claim ⟨1, 5, 1800000⟩ [.opAcquire 0] (by decide)

/-! ## Claims about the circuit breaker -/

/-- C1: with `failureThreshold = 5`, starting CLOSED with failure counter
0, the breaker is still CLOSED after 4 consecutive failed executions;
after exactly 5 it is OPEN with next-attempt timestamp `t5 + resetTimeout`
and failure counter 5; and an `execute` call made while `now` is still
before the next-attempt timestamp returns the `CIRCUIT_OPEN` error
without invoking the wrapped work and without changing the state. -/
theorem breaker_threshold_claim (cfg : CBConfig) (sc na t1 t2 t3 t4 t5 t6 : Nat)
    (hft : cfg.failureThreshold = 5)
    (h6 : t6 < t5 + cfg.resetTimeout) :
    (runCalls cfg failingWork ⟨.CLOSED, 0, sc, na⟩ [t1, t2, t3, t4]).state = .CLOSED ∧
    runCalls cfg failingWork ⟨.CLOSED, 0, sc, na⟩ [t1, t2, t3, t4, t5] =
      ⟨.OPEN, 5, 0, t5 + cfg.resetTimeout⟩ ∧
    execute cfg t6 failingWork ⟨.OPEN, 5, 0, t5 + cfg.resetTimeout⟩ =
      ⟨⟨.OPEN, 5, 0, t5 + cfg.resetTimeout⟩, .error .circuitOpen, false⟩ := by
  have e1 := step_fail_closed cfg t1 0 sc na (by omega)
  have e2 := step_fail_closed cfg t2 1 sc na (by omega)
  have e3 := step_fail_closed cfg t3 2 sc na (by omega)
  have e4 := step_fail_closed cfg t4 3 sc na (by omega)
  have e5 := step_fail_closed_opens cfg t5 4 sc na (by omega)
  refine ⟨?_, ?_, ?_⟩
  · simp [runCalls, e1, e2, e3, e4]
  · simp [runCalls, e1, e2, e3, e4, e5]
  · exact execute_rejected cfg t6 failingWork _ rfl h6

theorem breaker_threshold_claim_witness :
    (runCalls ⟨5, 2, 30000, 60000⟩ failingWork ⟨.CLOSED, 0, 0, 0⟩ [1, 2, 3, 4]).state
        = .CLOSED ∧
    runCalls ⟨5, 2, 30000, 60000⟩ failingWork ⟨.CLOSED, 0, 0, 0⟩ [1, 2, 3, 4, 5] =
      ⟨.OPEN, 5, 0, 60005⟩ ∧
    execute ⟨5, 2, 30000, 60000⟩ 6 failingWork ⟨.OPEN, 5, 0, 60005⟩ =
      ⟨⟨.OPEN, 5, 0, 60005⟩, .error .circuitOpen, false⟩ :=
  breaker_threshold_claim ⟨5, 2, 30000, 60000⟩ 0 0 1 2 3 4 5 6 rfl (by decide)

/-- C2: for a breaker in OPEN with `nextAttempt ≤ now`, `execute` moves
the state to HALF_OPEN at the admission check and does invoke the wrapped
work (for every work behaviour); if that probe fails — and more generally
on any failing execution from HALF_OPEN — the state is OPEN again with
next-attempt `now + resetTimeout`. -/
theorem breaker_half_open_probe_claim (cfg : CBConfig) (now : Nat) (s : CBState)
    (beh : WorkBehavior) (hs : s.state = .OPEN) (hna : s.nextAttempt ≤ now) :
    gate now s = ({ s with state := .HALF_OPEN }, true) ∧
    (execute cfg now beh s).invoked = true ∧
    (execute cfg now failingWork s).final.state = .OPEN ∧
    (execute cfg now failingWork s).final.nextAttempt = now + cfg.resetTimeout ∧
    ∀ s' : CBState, s'.state = .HALF_OPEN →
      (execute cfg now failingWork s').final.state = .OPEN ∧
      (execute cfg now failingWork s').final.nextAttempt = now + cfg.resetTimeout := by
  have hg := gate_open_late now s hs hna
  have hadm : (gate now s).2 = true := by rw [hg]
  have hfin := (execute_admitted_failing cfg now s hadm).1
  have hho : ((gate now s).1).state = .HALF_OPEN := by rw [hg]
  refine ⟨hg, execute_admitted_invoked cfg now beh s hadm, ?_, ?_, ?_⟩
  · rw [hfin]; exact (onFailure_half_open cfg now _ hho).1
  · rw [hfin]; exact (onFailure_half_open cfg now _ hho).2
  · intro s' hs'
    have hg' : gate now s' = (s', true) := gate_not_open now s' (by simp [hs'])
    have hadm' : (gate now s').2 = true := by rw [hg']
    have hfin' := (execute_admitted_failing cfg now s' hadm').1
    have hho' : ((gate now s').1).state = .HALF_OPEN := by rw [hg']; exact hs'
    rw [hfin']
    exact onFailure_half_open cfg now _ hho'

theorem breaker_half_open_probe_claim_witness :
    gate 70000 ⟨.OPEN, 5, 0, 60005⟩ = (⟨.HALF_OPEN, 5, 0, 60005⟩, true) ∧
    (execute ⟨5, 2, 30000, 60000⟩ 70000 failingWork ⟨.OPEN, 5, 0, 60005⟩).invoked = true ∧
    (execute ⟨5, 2, 30000, 60000⟩ 70000 failingWork ⟨.OPEN, 5, 0, 60005⟩).final.state
        = .OPEN ∧
    (execute ⟨5, 2, 30000, 60000⟩ 70000 failingWork ⟨.OPEN, 5, 0, 60005⟩).final.nextAttempt
        = 130000 ∧
    ∀ s' : CBState, s'.state = .HALF_OPEN →
      (execute ⟨5, 2, 30000, 60000⟩ 70000 failingWork s').final.state = .OPEN ∧
      (execute ⟨5, 2, 30000, 60000⟩ 70000 failingWork s').final.nextAttempt = 130000 :=
  breaker_half_open_probe_claim ⟨5, 2, 30000, 60000⟩ 70000 ⟨.OPEN, 5, 0, 60005⟩
    failingWork rfl (by decide)

/-- C3: with `successThreshold = 2` and a positive work timeout, from
HALF_OPEN with probe-success counter 0, one successful execution leaves
the breaker HALF_OPEN with failure counter 0 and success counter 1, and a
second consecutive success moves it to CLOSED with both counters 0. -/
theorem breaker_recovery_claim (cfg : CBConfig) (fc na t1 t2 : Nat)
    (hst : cfg.successThreshold = 2) (htm : 0 < cfg.timeout) :
    (execute cfg t1 succeedingWork ⟨.HALF_OPEN, fc, 0, na⟩).final =
      ⟨.HALF_OPEN, 0, 1, na⟩ ∧
    (execute cfg t2 succeedingWork ⟨.HALF_OPEN, 0, 1, na⟩).final =
      ⟨.CLOSED, 0, 0, na⟩ := by
  have hok : raceResult cfg succeedingWork = .ok () := raceResult_ok cfg 0 htm
  have hg1 : gate t1 ⟨.HALF_OPEN, fc, 0, na⟩ = (⟨.HALF_OPEN, fc, 0, na⟩, true) :=
    gate_not_open t1 _ (by simp)
  have hg2 : gate t2 ⟨.HALF_OPEN, 0, 1, na⟩ = (⟨.HALF_OPEN, 0, 1, na⟩, true) :=
    gate_not_open t2 _ (by simp)
  constructor
  · simp [execute, hg1, hok, onSuccess, hst]
  · simp [execute, hg2, hok, onSuccess, hst]

theorem breaker_recovery_claim_witness :
    (execute ⟨5, 2, 30000, 60000⟩ 70000 succeedingWork ⟨.HALF_OPEN, 3, 0, 60005⟩).final =
      ⟨.HALF_OPEN, 0, 1, 60005⟩ ∧
    (execute ⟨5, 2, 30000, 60000⟩ 70001 succeedingWork ⟨.HALF_OPEN, 0, 1, 60005⟩).final =
      ⟨.CLOSED, 0, 0, 60005⟩ :=
  breaker_recovery_claim ⟨5, 2, 30000, 60000⟩ 3 60005 70000 70001 rfl (by decide)

/-- C7: an admitted call whose work never settles, or settles only at or
after the configured timeout, returns the `CIRCUIT_TIMEOUT` error, did
invoke the work, and leaves the failure counter at exactly its previous
value plus one — even when the abandoned work would later have
resolved successfully. -/
theorem breaker_timeout_once_claim (cfg : CBConfig) (now t : Nat) (s : CBState)
    (hadm : (gate now s).2 = true) (hlate : cfg.timeout ≤ t) :
    ((execute cfg now .hangs s).result = .error .circuitTimeout ∧
     (execute cfg now .hangs s).invoked = true ∧
     (execute cfg now .hangs s).final.failureCount = s.failureCount + 1) ∧
    ((execute cfg now (.settles t true) s).result = .error .circuitTimeout ∧
     (execute cfg now (.settles t true) s).final.failureCount = s.failureCount + 1) := by
  have hh : raceResult cfg .hangs = .error .circuitTimeout := rfl
  have hl := raceResult_late cfg t true hlate
  constructor
  · refine ⟨by simp [execute, hadm, hh], by simp [execute, hadm, hh], ?_⟩
    have : (execute cfg now .hangs s).final = onFailure cfg now (gate now s).1 := by
      simp [execute, hadm, hh]
    rw [this, onFailure_failureCount, gate_fst_failureCount]
  · refine ⟨by simp [execute, hadm, hl], ?_⟩
    have : (execute cfg now (.settles t true) s).final = onFailure cfg now (gate now s).1 := by
      simp [execute, hadm, hl]
    rw [this, onFailure_failureCount, gate_fst_failureCount]

theorem breaker_timeout_once_claim_witness :
    ((execute ⟨5, 2, 30000, 60000⟩ 1000 .hangs ⟨.CLOSED, 2, 0, 0⟩).result
        = .error .circuitTimeout ∧
     (execute ⟨5, 2, 30000, 60000⟩ 1000 .hangs ⟨.CLOSED, 2, 0, 0⟩).invoked = true ∧
     (execute ⟨5, 2, 30000, 60000⟩ 1000 .hangs ⟨.CLOSED, 2, 0, 0⟩).final.failureCount
        = 3) ∧
    ((execute ⟨5, 2, 30000, 60000⟩ 1000 (.settles 30000 true) ⟨.CLOSED, 2, 0, 0⟩).result
        = .error .circuitTimeout ∧
     (execute ⟨5, 2, 30000, 60000⟩ 1000 (.settles 30000 true)
        ⟨.CLOSED, 2, 0, 0⟩).final.failureCount = 3) :=
  breaker_timeout_once_claim ⟨5, 2, 30000, 60000⟩ 1000 30000 ⟨.CLOSED, 2, 0, 0⟩
    (by decide) (by decide)

/-- C8: a store error on a read makes `getState`, `getFailureCount` and
`getNextAttempt` return the local shadow values instead of propagating
the error; a missing key reads as CLOSED and failure count 0; `setState`
updates the local shadow and absorbs a failing store write (its result
does not depend on whether the write failed); and `getStatus` built on
those accessors returns, under store errors, exactly the status computed
from the local shadow. -/
theorem store_fallback_claim (now : Nat) (sh : Shadow) (st : CircuitState) (b : Bool) :
    getStateRead .storeError sh = sh.localState ∧
    getFailureCountRead .storeError sh = sh.localFailureCount ∧
    getNextAttemptRead now .storeError sh = sh.localNextAttempt ∧
    getStateRead .missing sh = .CLOSED ∧
    getFailureCountRead .missing sh = 0 ∧
    setStateWrite b st sh = { sh with localState := st } ∧
    getStatus now .storeError .storeError .storeError sh =
      getStatus now .noStore .noStore .noStore sh := by
  refine ⟨rfl, rfl, rfl, rfl, rfl, ?_, rfl⟩
  cases b <;> rfl

/-- C10: every admitted execution whose work settles successfully within
the timeout returns `ok` and leaves the failure counter at zero, whatever
state the breaker was in when the work ran. -/
theorem success_clears_failures_claim (cfg : CBConfig) (now t : Nat) (s : CBState)
    (hadm : (gate now s).2 = true) (ht : t < cfg.timeout) :
    (execute cfg now (.settles t true) s).result = .ok () ∧
    (execute cfg now (.settles t true) s).final.failureCount = 0 := by
  have hok := raceResult_ok cfg t ht
  refine ⟨by simp [execute, hadm, hok], ?_⟩
  have : (execute cfg now (.settles t true) s).final = onSuccess cfg (gate now s).1 := by
    simp [execute, hadm, hok]
  rw [this, onSuccess_failureCount]

theorem success_clears_failures_claim_witness :
    (execute ⟨5, 2, 30000, 60000⟩ 70000 (.settles 10 true) ⟨.OPEN, 5, 0, 60005⟩).result
        = .ok () ∧
    (execute ⟨5, 2, 30000, 60000⟩ 70000 (.settles 10 true)
        ⟨.OPEN, 5, 0, 60005⟩).final.failureCount = 0 :=
  success_clears_failures_claim ⟨5, 2, 30000, 60000⟩ 70000 10 ⟨.OPEN, 5, 0, 60005⟩
    (by decide) (by decide)

end ECForce
